import Mathlib

-- Verification development for the fixposition_driver core:
-- transport read cycle, frame scanning loop, converter registry and
-- dispatcher, and the outbound wheel-speed (RAWDMI) frame encoder,
-- shallowly embedded from fixposition_driver_lib/src/fixposition_driver.cpp.

set_option maxRecDepth 4000

-- ===== DEFINITIONS =====

/-- Little-endian serialization of a 16-bit field. -/
def u16LE (n : Nat) : List Nat := [n % 256, n / 256 % 256]

/-- Little-endian serialization of a 32-bit field. -/
def u32LE (n : Nat) : List Nat :=
  [n % 256, n / 256 % 256, n / 65536 % 256, n / 16777216 % 256]

/-- Little-endian serialization of a signed 32-bit field (two's complement). -/
def i32LE (i : Int) : List Nat := u32LE ((i % ((2 : Int) ^ 32)).toNat)

/-- One bit-step of the CRC-32 feedback computation (polynomial 0xEDB88320). -/
def crc32Round (c : Nat) : Nat :=
  if c % 2 = 1 then (c / 2) ^^^ 0xEDB88320 else c / 2

/-- Eight bit-steps, i.e. the CRC contribution of one byte. -/
def crc32Byte (c : Nat) : Nat :=
  crc32Round (crc32Round (crc32Round (crc32Round
    (crc32Round (crc32Round (crc32Round (crc32Round c)))))))

/-- Modelled from the spec: `nov_crc32` (declared in the library's helper
header, body not under src/).  The spec fixes only that it is a CRC32 over
all frame bytes preceding the trailer with a vendor-frozen parameter set
(spec section 9); it is modelled here as the NovAtel CRC-32: polynomial
0xEDB88320, initial value 0, no final xor. -/
def nov_crc32 (data : List Nat) : Nat :=
  data.foldl (fun crc b => (crc / 256) ^^^ crc32Byte ((crc ^^^ b) % 256)) 0

/-- Modelled from the spec: the RAWDMI outbound telemetry frame record
(declared in the library's rawdmi header, not under src/).  Field set from
spec section 6: sync(3) + payloadLen(1) + msgId(2) + weekNumber + timeOfWeek
+ dmi1..dmi4 + mask + trailing crc32.  Field widths beyond those the spec
states are fixed here as wno:u16, tow:u32, dmi:i32 each, mask:u32. -/
structure RawDmi where
  head1 : Nat
  head2 : Nat
  head3 : Nat
  payloadLen : Nat
  msgId : Nat
  wno : Nat
  tow : Nat
  dmi1 : Int
  dmi2 : Int
  dmi3 : Int
  dmi4 : Int
  mask : Nat
deriving DecidableEq, Repr

/-- The driver constructor's initialization of the persistent `rawdmi_`
member (fixposition_driver.cpp lines 47-59). -/
def initialRawDmi : RawDmi :=
  { head1 := 0xaa, head2 := 0x44, head3 := 0x13, payloadLen := 20,
    msgId := 2269, wno := 0, tow := 0,
    dmi1 := 0, dmi2 := 0, dmi3 := 0, dmi4 := 0, mask := 0 }

/-- The field updates WsCallback performs on the persistent `rawdmi_` member
for each accepted reading count (fixposition_driver.cpp lines 91-106);
`none` is the early-return branch for any other count. -/
def wsUpdate (st : RawDmi) (speeds : List Int) : Option RawDmi :=
  match speeds with
  | [s0] =>
      some { st with dmi1 := s0,
                     mask := (1 <<< 0) ||| (0 <<< 1) ||| (0 <<< 2) ||| (0 <<< 3) }
  | [s0, s1] =>
      some { st with dmi1 := s0, dmi2 := s1,
                     mask := (1 <<< 0) ||| (1 <<< 1) ||| (0 <<< 2) ||| (0 <<< 3) ||| (1 <<< 11) }
  | [s0, s1, s2, s3] =>
      some { st with dmi1 := s0, dmi2 := s1, dmi3 := s2, dmi4 := s3,
                     mask := (1 <<< 0) ||| (1 <<< 1) ||| (1 <<< 2) ||| (1 <<< 3) }
  | _ => none

/-- Byte image of the RawDmi record (the `memcpy` of `rawdmi_` into the
outgoing message buffer, fixposition_driver.cpp line 113), using the
modelled field layout. -/
def rawDmiBytes (d : RawDmi) : List Nat :=
  [d.head1 % 256, d.head2 % 256, d.head3 % 256, d.payloadLen % 256]
    ++ u16LE d.msgId ++ u16LE d.wno ++ u32LE d.tow
    ++ i32LE d.dmi1 ++ i32LE d.dmi2 ++ i32LE d.dmi3 ++ i32LE d.dmi4
    ++ u32LE d.mask

/-- The complete transmitted message: struct bytes followed by the CRC32 of
those bytes (fixposition_driver.cpp lines 108-114). -/
def dmiFrame (d : RawDmi) : List Nat :=
  rawDmiBytes d ++ u32LE (nov_crc32 (rawDmiBytes d))

/-- FixpositionDriver::WsCallback (fixposition_driver.cpp lines 90-127):
updates the persistent `rawdmi_` state and reports the bytes handed to the
transport, or leaves the state untouched and sends nothing when the reading
count is unsupported. -/
def WsCallback (st : RawDmi) (speeds : List Int) : RawDmi × Option (List Nat) :=
  match wsUpdate st speeds with
  | none => (st, none)
  | some st' => (st', some (dmiFrame st'))

/-- A history of wheel-speed encode calls applied to the driver's persistent
`rawdmi_` state, starting from the constructor's initialization. -/
def runHistory (calls : List (List Int)) : RawDmi :=
  calls.foldl (fun st v => (WsCallback st v).1) initialRawDmi

/-- The constructor-set framing fields of `rawdmi_`, which WsCallback never
writes (heads, payload length, message id, and the caller-set time fields,
which no embedded call sets). -/
def fixedFieldsOk (d : RawDmi) : Prop :=
  d.head1 = 0xaa ∧ d.head2 = 0x44 ∧ d.head3 = 0x13 ∧ d.payloadLen = 20 ∧
    d.msgId = 2269 ∧ d.wno = 0 ∧ d.tow = 0

/-- One observable event of the scan loop in ReadAndPublish
(fixposition_driver.cpp lines 186-221): a consumed binary frame, a consumed
ascii frame, a one-byte resynchronization advance, or the early end of the
pass when a matcher reports "incomplete" (negative return). -/
inductive ScanEvent where
  | novFrame (bytes : List Nat)
  | nmeaFrame (bytes : List Nat)
  | skip (b : Nat)
  | stopIncomplete
deriving DecidableEq, Repr

/-- The scan loop of ReadAndPublish (fixposition_driver.cpp lines 186-221),
parametrized by the two matcher functions (IsNovMessage and IsNmeaMessage in
the source) and run with explicit fuel so that the recursion is structural.
At each offset: the binary matcher is consulted first; a positive return
consumes that many bytes as a binary frame; a negative return breaks the
pass; on zero the ascii matcher is consulted the same way; if both return
zero the loop advances by one byte. -/
def scanGo (isNov isNmea : List Nat → Int) : Nat → List Nat → List ScanEvent
  | 0, _ => []
  | _ + 1, [] => []
  | fuel + 1, b :: more =>
      let n := isNov (b :: more)
      if 0 < n then
        ScanEvent.novFrame ((b :: more).take n.toNat)
          :: scanGo isNov isNmea fuel ((b :: more).drop n.toNat)
      else if n < 0 then [ScanEvent.stopIncomplete]
      else
        let m := isNmea (b :: more)
        if 0 < m then
          ScanEvent.nmeaFrame ((b :: more).take m.toNat)
            :: scanGo isNov isNmea fuel ((b :: more).drop m.toNat)
        else if m < 0 then [ScanEvent.stopIncomplete]
        else ScanEvent.skip b :: scanGo isNov isNmea fuel more

/-- One full scanning pass over a read buffer: the loop consumes at least
one byte whenever it recurses, so `buf.length` fuel is always enough. -/
def scanBuf (isNov isNmea : List Nat → Int) (buf : List Nat) : List ScanEvent :=
  scanGo isNov isNmea buf.length buf

/-- Events that carry a decoded frame. -/
def isFrameEvent : ScanEvent → Bool
  | ScanEvent.novFrame _ => true
  | ScanEvent.nmeaFrame _ => true
  | _ => false

/-- The ordered sequence of decoded frames of a pass. -/
def decodedFrames (evs : List ScanEvent) : List ScanEvent :=
  evs.filter isFrameEvent

/-- The 3-byte sync marker opening an inbound binary frame (spec sections 3
and 4.2; the concrete byte values are vendor-fixed and irrelevant to every
claim, the outbound signature values are reused here). -/
def novSyncBytes : List Nat := [0xaa, 0x44, 0x13]

/-- Modelled from the spec: `IsNovMessage` (declared in the library's parser
header, body not under src/).  Spec section 4.2 step 1: returns the total
frame size 3+1+2+payload-length+4 when the sync marker matches, the whole
frame is present and the CRC32 trailer checks out; a negative "incomplete"
when the marker (or the prefix of it that fits the buffer) matches but the
frame is not yet complete; and 0 ("not a frame here") otherwise, a CRC
mismatch included. -/
def IsNovMessage (buf : List Nat) : Int :=
  if buf.length < 3 then
    if buf = novSyncBytes.take buf.length then -1 else 0
  else if buf.take 3 = novSyncBytes then
    if buf.length < 10 + buf.getD 3 0 then -1
    else if (buf.drop (6 + buf.getD 3 0)).take 4
        = u32LE (nov_crc32 (buf.take (6 + buf.getD 3 0))) then
      ((10 + buf.getD 3 0 : Nat) : Int)
    else 0
  else 0

/-- Index of the carriage return of the first CR LF pair of the buffer. -/
def findCrLf : List Nat → Option Nat
  | [] => none
  | [_] => none
  | a :: b :: rest =>
      if a = 13 ∧ b = 10 then some 0
      else (findCrLf (b :: rest)).map (· + 1)

/-- Modelled from the spec: `IsNmeaMessage` (declared in the library's
parser header, body not under src/).  Spec section 4.2 step 2 with the
section 6 grammar: an ascii frame starts at the marker `$` and runs through
the CR LF terminator, whose bytes it includes so the scan advances past
them; a start marker with no terminator yet is "incomplete"; anything else
is "not a frame here". -/
def IsNmeaMessage (buf : List Nat) : Int :=
  if buf.headD 0 ≠ 36 then 0
  else
    match findCrLf buf with
    | some j => ((j + 2 : Nat) : Int)
    | none => -1

/-- One call of ReadAndPublish's scan loop over the bytes of one read,
with the repository's two matchers. -/
def readCycle (buf : List Nat) : List ScanEvent :=
  scanBuf IsNovMessage IsNmeaMessage buf

/-- Successive ReadAndPublish calls: `readBuf` is a local of the function
(fixposition_driver.cpp line 161) and each pass scans only the bytes of its
own read, so the events of a sequence of reads are the concatenation of the
per-chunk passes, with nothing carried between cycles. -/
def runCycles (chunks : List (List Nat)) : List ScanEvent :=
  (chunks.map readCycle).flatten

/-- A complete, CRC-correct binary frame with empty payload: sync marker,
length 0, message id 0x1234, and its own CRC32 trailer. -/
def novEx : List Nat :=
  [0xaa, 0x44, 0x13, 0, 0x34, 0x12]
    ++ u32LE (nov_crc32 [0xaa, 0x44, 0x13, 0, 0x34, 0x12])

/-- The bytes of the ascii sentence `$FP,A*00` followed by CR LF. -/
def nmeaEx : List Nat := [36, 70, 80, 44, 65, 42, 48, 48, 13, 10]

/-- The converter registry `a_converters_`: category-keyed map where `some
id` is a live converter instance (ids number the `new` allocations, so that
replacing an instance is observable) and `none` is a null `unique_ptr`
slot, as default-inserted by `std::map::operator[]`.  `std::map` stores
keys in sorted order; entry position is irrelevant to every lookup-based
claim, so insertion order is used here. -/
abbrev Registry := List (String × Option Nat)

/-- Key lookup without insertion (std::map::find). -/
def lookupKey : Registry → String → Option (Option Nat)
  | [], _ => none
  | (k', v) :: rest, k => if k' = k then some v else lookupKey rest k

/-- Map assignment `m[k] = v`: replaces the mapped value when the key is
present, inserts the entry otherwise. -/
def mapAssign : Registry → String → Option Nat → Registry
  | [], k, v => [(k, v)]
  | (k', v') :: rest, k, v =>
      if k' = k then (k', v) :: rest else (k', v') :: mapAssign rest k v

/-- Registry plus the allocation counter that numbers converter instances. -/
structure ConvState where
  reg : Registry
  nextId : Nat
deriving DecidableEq, Repr

/-- Allocate a fresh converter instance and assign it to the key
(`a_converters_[k] = std::unique_ptr(new ...)`). -/
def newConverter (st : ConvState) (k : String) : ConvState :=
  { reg := mapAssign st.reg k (some st.nextId), nextId := st.nextId + 1 }

/-- One iteration of the InitializeConverters loop (fixposition_driver.cpp
lines 130-147): ODOMETRY assigns a fresh OdometryConverter and a fresh
TfConverter; LLH, RAWIMU and CORRIMU assign a fresh converter (map
assignment, replacing any existing instance); TF is registered only when
the key is absent; an unknown format only warns. -/
def registerFormat (st : ConvState) (format : String) : ConvState :=
  if format = "ODOMETRY" then newConverter (newConverter st "ODOMETRY") "TF"
  else if format = "LLH" then newConverter st "LLH"
  else if format = "RAWIMU" then newConverter st "RAWIMU"
  else if format = "CORRIMU" then newConverter st "CORRIMU"
  else if format = "TF" then
    (if lookupKey st.reg "TF" = none then newConverter st "TF" else st)
  else st

/-- FixpositionDriver::InitializeConverters (fixposition_driver.cpp lines
129-149), starting from the empty registry.  The C++ function finally
returns whether the registry ended non-empty. -/
def InitializeConverters (formats : List String) : ConvState :=
  formats.foldl registerFormat { reg := [], nextId := 0 }

/-- The category keys of a registry, in storage order. -/
def regKeys (r : Registry) : List String := r.map Prod.fst

/-- std::map::operator[] as used for the dispatch lookup: yields the mapped
value, default-inserting a null entry when the key is missing; returns the
resulting registry and the value read through the reference. -/
def mapIndexRef (r : Registry) (k : String) : Registry × Option Nat :=
  match lookupKey r k with
  | some v => (r, v)
  | none => (r ++ [(k, none)], none)

/-- Index of the last `*` of the message (std::string::find_last_of). -/
def findLastStar : List Char → Option Nat
  | [] => none
  | c :: rest =>
      match findLastStar rest with
      | some j => some (j + 1)
      | none => if c = '*' then some 0 else none

/-- Split a character list on commas; always at least one (possibly empty)
token. -/
def splitOnComma : List Char → List (List Char)
  | [] => [[]]
  | c :: rest =>
      if c = ',' then [] :: splitOnComma rest
      else
        match splitOnComma rest with
        | t :: ts => (c :: t) :: ts
        | [] => [[c]]

/-- Modelled from the spec: `SplitMessage` (declared in the library's
helper header, body not under src/): the decoder "splits remaining text on
`,`" (spec section 6). -/
def SplitMessage (cs : List Char) : List (List Char) := splitOnComma cs

/-- The tokenization of NmeaConvertAndPublish (fixposition_driver.cpp lines
228-230): find the last `*`, take the text from index 1 up to but excluding
it — std::string::substr(1, star_pos - 1), reproducing the size_t
wrap-around to "rest of string" when the `*` sits at index 0 and when no
`*` exists (npos) — and split it on commas. -/
def nmeaTokens (msg : List Char) : List String :=
  (SplitMessage (match findLastStar msg with
    | some p => if p = 0 then msg.drop 1 else (msg.drop 1).take (p - 1)
    | none => msg.drop 1)).map (fun cs => String.mk cs)

/-- Outcome of one dispatch call: `thrown` models an uncaught
std::out_of_range raised by `tokens.at` (or by substr on an empty message);
`done` carries the registry after the call and the converter invocation, if
any, as the header key and the token list handed to ConvertTokens. -/
inductive NmeaOutcome where
  | thrown
  | done (reg : Registry) (dispatched : Option (String × List String))
deriving DecidableEq, Repr

/-- FixpositionDriver::NmeaConvertAndPublish (fixposition_driver.cpp lines
226-244): tokenize the sentence, return early when token 0 is not "FP"
(registry untouched, nothing dispatched), otherwise read
`a_converters_[tokens.at(1)]` — std::map::operator[], which default-inserts
a null entry on a miss — and invoke the converter exactly when the entry is
non-null. -/
def NmeaConvertAndPublish (reg : Registry) (msg : List Char) : NmeaOutcome :=
  if msg.length < 1 then NmeaOutcome.thrown
  else
    match (nmeaTokens msg)[0]? with
    | none => NmeaOutcome.thrown
    | some t0 =>
        if t0 = "FP" then
          match (nmeaTokens msg)[1]? with
          | none => NmeaOutcome.thrown
          | some header =>
              match (mapIndexRef reg header).2 with
              | some _ =>
                  NmeaOutcome.done (mapIndexRef reg header).1
                    (some (header, nmeaTokens msg))
              | none => NmeaOutcome.done (mapIndexRef reg header).1 none
        else NmeaOutcome.done reg none

/-- Result of the non-blocking read at the top of ReadAndPublish
(fixposition_driver.cpp lines 163-184): a positive byte count, zero (the
peer closed), or negative with errno EAGAIN ("no data yet") or with any
other errno. -/
inductive ReadResult where
  | data (bytes : List Nat)
  | closed
  | noData
  | ioError
deriving DecidableEq, Repr

/-- FixpositionDriver::ReadAndPublish (fixposition_driver.cpp lines
160-224): false on a closed connection (rv = 0) and on an I/O error (rv <
0 with errno other than EAGAIN); true with no scanning when no data is
available yet; otherwise the received bytes are scanned and the call
returns true. -/
def ReadAndPublish : ReadResult → Bool × List ScanEvent
  | ReadResult.closed => (false, [])
  | ReadResult.noData => (true, [])
  | ReadResult.ioError => (false, [])
  | ReadResult.data b => (true, readCycle b)

/-- The bytes of the sentence `$FP*XX`: a checksum delimiter directly after
the vendor tag, so the content splits into the single token "FP". -/
def msgFpOnly : List Char := ['$', 'F', 'P', '*', 'X', 'X']

/-- The bytes of the sentence `$FP,XYZ*00`, whose message type XYZ has no
converter. -/
def msgFpXYZ : List Char := ['$', 'F', 'P', ',', 'X', 'Y', 'Z', '*', '0', '0']

/-- The bytes of the sentence `$GP,LLH*00`: a non-FP talker followed by a
sentence type that does have a converter. -/
def msgGpLLH : List Char := ['$', 'G', 'P', ',', 'L', 'L', 'H', '*', '0', '0']

/-- A registry holding every plausible rendering of the two-level key of
`$GP,LLH*00` as well as its second token alone. -/
def regAllKeys : Registry :=
  [("LLH", some 0), ("GP", some 1), ("GP,LLH", some 2), ("GPLLH", some 3)]

-- ===== THEOREMS =====

/-- The scan loop's result does not depend on the fuel, provided the fuel is
at least the buffer length. -/
theorem scanGo_fuel (isNov isNmea : List Nat → Int) :
    ∀ (fuel fuel' : Nat) (buf : List Nat), buf.length ≤ fuel → buf.length ≤ fuel' →
      scanGo isNov isNmea fuel buf = scanGo isNov isNmea fuel' buf := by
  intro fuel
  induction fuel with
  | zero =>
      intro fuel' buf h _
      have : buf = [] := List.eq_nil_of_length_eq_zero (Nat.le_zero.mp h)
      subst this
      cases fuel' <;> rfl
  | succ fuel ih =>
      intro fuel' buf h h'
      match buf with
      | [] => cases fuel' <;> rfl
      | b :: more =>
          match fuel' with
          | 0 => exact absurd h' (by simp)
          | fuel'' + 1 =>
              simp only [List.length_cons] at h h'
              show scanGo isNov isNmea (fuel + 1) (b :: more)
                  = scanGo isNov isNmea (fuel'' + 1) (b :: more)
              simp only [scanGo]
              by_cases hn : 0 < isNov (b :: more)
              · simp only [hn, if_pos]
                have hk : 1 ≤ (isNov (b :: more)).toNat := by omega
                have hd : ((b :: more).drop (isNov (b :: more)).toNat).length
                    ≤ more.length := by
                  rw [List.length_drop, List.length_cons]
                  omega
                rw [ih fuel'' ((b :: more).drop (isNov (b :: more)).toNat)
                    (by omega) (by omega)]
              · simp only [hn, if_neg, if_false]
                by_cases hn' : isNov (b :: more) < 0
                · simp [hn']
                · simp only [hn', if_neg, if_false]
                  by_cases hm : 0 < isNmea (b :: more)
                  · simp only [hm, if_pos]
                    have hk : 1 ≤ (isNmea (b :: more)).toNat := by omega
                    have hd : ((b :: more).drop (isNmea (b :: more)).toNat).length
                        ≤ more.length := by
                      rw [List.length_drop, List.length_cons]
                      omega
                    rw [ih fuel'' ((b :: more).drop (isNmea (b :: more)).toNat)
                        (by omega) (by omega)]
                  · simp only [hm, if_neg, if_false]
                    by_cases hm' : isNmea (b :: more) < 0
                    · simp [hm']
                    · simp only [hm', if_neg, if_false]
                      rw [ih fuel'' more (by omega) (by omega)]

/-- Unfolding equation: a pass over the empty buffer produces nothing. -/
theorem scanBuf_nil (isNov isNmea : List Nat → Int) :
    scanBuf isNov isNmea [] = [] := rfl

/-- Unfolding equation for a pass over a non-empty buffer, expressed in
terms of `scanBuf` itself. -/
theorem scanBuf_cons (isNov isNmea : List Nat → Int) (b : Nat) (more : List Nat) :
    scanBuf isNov isNmea (b :: more) =
      (if 0 < isNov (b :: more) then
        ScanEvent.novFrame ((b :: more).take (isNov (b :: more)).toNat)
          :: scanBuf isNov isNmea ((b :: more).drop (isNov (b :: more)).toNat)
      else if isNov (b :: more) < 0 then [ScanEvent.stopIncomplete]
      else if 0 < isNmea (b :: more) then
        ScanEvent.nmeaFrame ((b :: more).take (isNmea (b :: more)).toNat)
          :: scanBuf isNov isNmea ((b :: more).drop (isNmea (b :: more)).toNat)
      else if isNmea (b :: more) < 0 then [ScanEvent.stopIncomplete]
      else ScanEvent.skip b :: scanBuf isNov isNmea more) := by
  show scanGo isNov isNmea (more.length + 1) (b :: more) = _
  simp only [scanGo, scanBuf]
  by_cases hn : 0 < isNov (b :: more)
  · simp only [hn, if_pos]
    rw [scanGo_fuel isNov isNmea more.length
        ((b :: more).drop (isNov (b :: more)).toNat).length
        ((b :: more).drop (isNov (b :: more)).toNat)
        (by rw [List.length_drop, List.length_cons]; omega) (Nat.le_refl _)]
  · simp only [hn, if_neg, if_false]
    by_cases hn' : isNov (b :: more) < 0
    · simp [hn']
    · simp only [hn', if_neg, if_false]
      by_cases hm : 0 < isNmea (b :: more)
      · simp only [hm, if_pos]
        rw [scanGo_fuel isNov isNmea more.length
            ((b :: more).drop (isNmea (b :: more)).toNat).length
            ((b :: more).drop (isNmea (b :: more)).toNat)
            (by rw [List.length_drop, List.length_cons]; omega) (Nat.le_refl _)]
      · simp only [hm, if_neg, if_false]

/-- WsCallback writes only the dmi and mask fields: the constructor-set
framing fields and the time fields survive any single encode call. -/
theorem wsCallback_fixedFields (st : RawDmi) (v : List Int) (h : fixedFieldsOk st) :
    fixedFieldsOk (WsCallback st v).1 := by
  match v with
  | [] => exact h
  | [a] => exact h
  | [a, b] => exact h
  | [a, b, c] => exact h
  | [a, b, c, d] => exact h
  | a :: b :: c :: d :: e :: t => exact h

/-- The framing and time fields survive any fold of encode calls. -/
theorem foldHistory_fixedFields (calls : List (List Int)) :
    ∀ st : RawDmi, fixedFieldsOk st →
      fixedFieldsOk (calls.foldl (fun st v => (WsCallback st v).1) st) := by
  induction calls with
  | nil => intro st h; exact h
  | cons v rest ih =>
      intro st h
      exact ih _ (wsCallback_fixedFields st v h)

/-- Every state reachable by a history of encode calls keeps the
constructor's framing fields and zero time fields. -/
theorem runHistory_fixedFields (calls : List (List Int)) :
    fixedFieldsOk (runHistory calls) :=
  foldHistory_fixedFields calls initialRawDmi ⟨rfl, rfl, rfl, rfl, rfl, rfl, rfl⟩

/-- Claim C3: for every call to the outbound encoder, exactly 1 reading sets
only mask bit 0; exactly 2 readings set bits 0, 1 and 11; exactly 4 readings
set bits 0-3; any other reading count is a no-op that transmits nothing.
The last conjunct ties the updated state to the transmitted frame bytes. -/
theorem c3_mask_encoding (st : RawDmi) (speeds : List Int) :
    (speeds.length = 1 → (wsUpdate st speeds).map RawDmi.mask = some (2 ^ 0)) ∧
    (speeds.length = 2 →
      (wsUpdate st speeds).map RawDmi.mask = some (2 ^ 0 + 2 ^ 1 + 2 ^ 11)) ∧
    (speeds.length = 4 →
      (wsUpdate st speeds).map RawDmi.mask = some (2 ^ 0 + 2 ^ 1 + 2 ^ 2 + 2 ^ 3)) ∧
    (speeds.length ≠ 1 → speeds.length ≠ 2 → speeds.length ≠ 4 →
      WsCallback st speeds = (st, none)) ∧
    (∀ st', wsUpdate st speeds = some st' →
      WsCallback st speeds = (st', some (dmiFrame st'))) := by
  match speeds with
  | [] =>
      refine ⟨by simp, by simp, by simp, ?_, ?_⟩
      · intro _ _ _; rfl
      · intro st' h; simp [wsUpdate] at h
  | [a] =>
      refine ⟨?_, by simp, by simp, ?_, ?_⟩
      · intro _; simp [wsUpdate]
      · intro h; simp at h
      · intro st' h; simp [WsCallback, h]
  | [a, b] =>
      refine ⟨by simp, ?_, by simp, ?_, ?_⟩
      · intro _; simp [wsUpdate]
      · intro _ h; simp at h
      · intro st' h; simp [WsCallback, h]
  | [a, b, c] =>
      refine ⟨by simp, by simp, by simp, ?_, ?_⟩
      · intro _ _ _; rfl
      · intro st' h; simp [wsUpdate] at h
  | [a, b, c, d] =>
      refine ⟨by simp, by simp, ?_, ?_, ?_⟩
      · intro _; simp [wsUpdate]
      · intro _ _ h; simp at h
      · intro st' h; simp [WsCallback, h]
  | a :: b :: c :: d :: e :: t =>
      refine ⟨by simp, by simp, by simp [Nat.succ_ne_zero], ?_, ?_⟩
      · intro _ _ _; rfl
      · intro st' h; simp [wsUpdate] at h

/-- Witness for claim C3 at concrete reading counts 1, 2, 4 and 3. -/
theorem c3_mask_encoding_witness :
    (wsUpdate initialRawDmi [3]).map RawDmi.mask = some (2 ^ 0) ∧
    (wsUpdate initialRawDmi [3, 4]).map RawDmi.mask = some (2 ^ 0 + 2 ^ 1 + 2 ^ 11) ∧
    (wsUpdate initialRawDmi [3, 4, 5, 6]).map RawDmi.mask
      = some (2 ^ 0 + 2 ^ 1 + 2 ^ 2 + 2 ^ 3) ∧
    WsCallback initialRawDmi [3, 4, 5] = (initialRawDmi, none) :=
  ⟨(c3_mask_encoding initialRawDmi [3]).1 (by decide),
   (c3_mask_encoding initialRawDmi [3, 4]).2.1 (by decide),
   (c3_mask_encoding initialRawDmi [3, 4, 5, 6]).2.2.1 (by decide),
   (c3_mask_encoding initialRawDmi [3, 4, 5]).2.2.2.1
     (by decide) (by decide) (by decide)⟩

/-- Claim C2 counterexample: two histories whose final calls pass the
identical single reading 5 (and identical, never-touched time fields)
transmit different frame bytes, because the persistent `rawdmi_` struct
still holds dmi2..dmi4 from the earlier 4-reading call.  The claimed
fresh-per-call construction is refuted at this input. -/
theorem c2_fresh_frame_cx :
    (WsCallback (runHistory [[1, 2, 3, 4]]) [5]).2
      ≠ (WsCallback (runHistory []) [5]).2 := by decide

/-- Claim C2 as amended: the outbound frame struct is persistent and reused
across encode calls, so wheel-speed fields not populated by the current call
carry values from earlier calls; the claimed history-independence holds
exactly when the final call populates all four wheel fields (4 readings),
the time fields being equal because no encode call touches them. -/
theorem c2_fresh_frame_amended (h1 h2 : List (List Int)) (v : List Int)
    (hv : v.length = 4) :
    (WsCallback (runHistory h1) v).2 = (WsCallback (runHistory h2) v).2 := by
  match v, hv with
  | [a, b, c, d], _ =>
      have k1 := runHistory_fixedFields h1
      have k2 := runHistory_fixedFields h2
      rcases e1 : runHistory h1 with ⟨x1, x2, x3, x4, x5, x6, x7, xd1, xd2, xd3, xd4, xm⟩
      rcases e2 : runHistory h2 with ⟨y1, y2, y3, y4, y5, y6, y7, yd1, yd2, yd3, yd4, ym⟩
      rw [e1] at k1
      rw [e2] at k2
      simp only [fixedFieldsOk] at k1 k2
      obtain ⟨rfl, rfl, rfl, rfl, rfl, rfl, rfl⟩ := k1
      obtain ⟨rfl, rfl, rfl, rfl, rfl, rfl, rfl⟩ := k2
      rfl

/-- Witness for the amended claim C2: histories [] and [[1,2,3,4]] with the
same final 4-reading call transmit identical bytes. -/
theorem c2_fresh_frame_amended_witness :
    (WsCallback (runHistory []) [9, 9, 9, 9]).2
      = (WsCallback (runHistory [[1, 2, 3, 4]]) [9, 9, 9, 9]).2 :=
  c2_fresh_frame_amended [] [[1, 2, 3, 4]] [9, 9, 9, 9] rfl

/-- Claim C4: at every candidate offset the scan loop consults the binary
matcher strictly before the ascii matcher.  When the binary matcher reports
"incomplete" (negative), the pass ends at once with no frame and no later
offset examined, and the result is the same for every ascii matcher — the
ascii matcher is not consulted at that offset.  When the binary matcher
recognizes a frame (positive), that frame is consumed regardless of the
ascii matcher. -/
theorem c4_binary_first (isNov : List Nat → Int) (buf : List Nat) (hne : buf ≠ []) :
    (isNov buf < 0 →
      ∀ isNmea, scanBuf isNov isNmea buf = [ScanEvent.stopIncomplete]) ∧
    (0 < isNov buf →
      ∀ isNmea, scanBuf isNov isNmea buf
        = ScanEvent.novFrame (buf.take (isNov buf).toNat)
            :: scanBuf isNov isNmea (buf.drop (isNov buf).toNat)) := by
  match buf with
  | [] => exact absurd rfl hne
  | b :: more =>
      constructor
      · intro hneg isNmea
        rw [scanBuf_cons, if_neg (by omega : ¬ 0 < isNov (b :: more)), if_pos hneg]
      · intro hpos isNmea
        rw [scanBuf_cons, if_pos hpos]

/-- Witness for claim C4: a lone first sync byte makes the modelled binary
matcher report "incomplete" and the pass stops; a complete binary frame is
consumed ahead of the ascii matcher. -/
theorem c4_binary_first_witness :
    scanBuf IsNovMessage IsNmeaMessage [0xaa] = [ScanEvent.stopIncomplete] ∧
    scanBuf IsNovMessage IsNmeaMessage novEx
      = ScanEvent.novFrame (novEx.take (IsNovMessage novEx).toNat)
          :: scanBuf IsNovMessage IsNmeaMessage (novEx.drop (IsNovMessage novEx).toNat) :=
  ⟨(c4_binary_first IsNovMessage [0xaa] (by decide)).1 (by decide) IsNmeaMessage,
   (c4_binary_first IsNovMessage novEx (by decide)).2 (by decide) IsNmeaMessage⟩

/-- Claim C5: the resynchronization path makes progress one byte at a time:
when neither matcher recognizes any of the first N offsets, the pass makes
exactly N single-byte advances (one `skip` event per garbage byte) and then
scans the remainder unchanged — a valid frame after the garbage is still
decoded. -/
theorem c5_resync_progress (isNov isNmea : List Nat → Int) (g rest : List Nat)
    (h : ∀ k, k < g.length →
      isNov (List.drop k (g ++ rest)) = 0 ∧ isNmea (List.drop k (g ++ rest)) = 0) :
    scanBuf isNov isNmea (g ++ rest)
      = g.map ScanEvent.skip ++ scanBuf isNov isNmea rest := by
  induction g with
  | nil => simp
  | cons b t ih =>
      have h0 := h 0 (by simp)
      simp only [List.drop_zero, List.cons_append] at h0
      rw [List.cons_append, scanBuf_cons, h0.1, h0.2]
      simp only [lt_self_iff_false, if_false, List.map_cons, List.cons_append]
      have h' : ∀ k, k < t.length →
          isNov (List.drop k (t ++ rest)) = 0 ∧ isNmea (List.drop k (t ++ rest)) = 0 := by
        intro k hk
        have hh := h (k + 1) (by simp only [List.length_cons]; omega)
        simpa using hh
      rw [ih h']

/-- Witness for claim C5: one non-matching byte before a valid ascii frame
produces exactly one single-byte advance and the frame is still decoded. -/
theorem c5_resync_progress_witness :
    scanBuf IsNovMessage IsNmeaMessage ([7] ++ nmeaEx)
      = [7].map ScanEvent.skip ++ scanBuf IsNovMessage IsNmeaMessage nmeaEx :=
  c5_resync_progress IsNovMessage IsNmeaMessage [7] nmeaEx (by
    intro k hk
    have hk0 : k = 0 := Nat.lt_one_iff.mp hk
    subst hk0
    exact ⟨by decide, by decide⟩)


/-- A buffer the binary matcher rejects is still rejected after more bytes
are appended: the 0 answer depends only on the bytes of the rejected span. -/
theorem IsNovMessage_zero_ext (s ext : List Nat) (_hne : s ≠ [])
    (h : IsNovMessage s = 0) : IsNovMessage (s ++ ext) = 0 := by
  unfold IsNovMessage at h ⊢
  by_cases h3 : s.length < 3
  · rw [if_pos h3] at h
    have hs : s ≠ novSyncBytes.take s.length := by
      intro he
      rw [if_pos he] at h
      exact absurd h (by decide)
    by_cases h3' : (s ++ ext).length < 3
    · rw [if_pos h3', if_neg]
      intro he
      have hc := congrArg (List.take s.length) he
      rw [List.take_left, List.take_take,
        min_eq_left (by simp : s.length ≤ (s ++ ext).length)] at hc
      exact hs hc
    · rw [if_neg h3', if_neg]
      intro he
      have hc := congrArg (List.take s.length) he
      rw [List.take_take, min_eq_left (Nat.le_of_lt h3), List.take_left] at hc
      exact hs hc
  · rw [if_neg h3] at h
    have h3' : ¬ (s ++ ext).length < 3 := by
      simp only [List.length_append]
      omega
    rw [if_neg h3']
    have htake3 : (s ++ ext).take 3 = s.take 3 :=
      List.take_append_of_le_length (by omega)
    by_cases hsync : s.take 3 = novSyncBytes
    · rw [if_pos hsync] at h
      by_cases hincomp : s.length < 10 + s.getD 3 0
      · rw [if_pos hincomp] at h
        exact absurd h (by decide)
      · rw [if_neg hincomp] at h
        by_cases hcrc : (s.drop (6 + s.getD 3 0)).take 4
            = u32LE (nov_crc32 (s.take (6 + s.getD 3 0)))
        · rw [if_pos hcrc] at h
          exact absurd h (by omega)
        · have hgd : (s ++ ext).getD 3 0 = s.getD 3 0 :=
            List.getD_append _ _ _ _ (by omega)
          rw [htake3, if_pos hsync, hgd]
          rw [if_neg (show ¬ (s ++ ext).length < 10 + s.getD 3 0 by
            simp only [List.length_append]; omega)]
          have e1 : (s ++ ext).take (6 + s.getD 3 0) = s.take (6 + s.getD 3 0) :=
            List.take_append_of_le_length (by omega)
          have e2 : (s ++ ext).drop (6 + s.getD 3 0) = s.drop (6 + s.getD 3 0) ++ ext :=
            List.drop_append_of_le_length (by omega)
          have e3 : (s.drop (6 + s.getD 3 0) ++ ext).take 4 = (s.drop (6 + s.getD 3 0)).take 4 :=
            List.take_append_of_le_length (by rw [List.length_drop]; omega)
          rw [e1, e2, e3, if_neg hcrc]
    · rw [if_neg hsync] at h
      rw [htake3, if_neg hsync]

/-- A complete frame recognized by the binary matcher is recognized with
the same size after more bytes are appended. -/
theorem IsNovMessage_pos_ext (s ext : List Nat) (h : 0 < IsNovMessage s) :
    IsNovMessage (s ++ ext) = IsNovMessage s := by
  unfold IsNovMessage at h ⊢
  by_cases h3 : s.length < 3
  · rw [if_pos h3] at h
    by_cases he : s = novSyncBytes.take s.length
    · rw [if_pos he] at h
      exact absurd h (by decide)
    · rw [if_neg he] at h
      exact absurd h (by decide)
  · rw [if_neg h3] at h
    by_cases hsync : s.take 3 = novSyncBytes
    · rw [if_pos hsync] at h
      by_cases hincomp : s.length < 10 + s.getD 3 0
      · rw [if_pos hincomp] at h
        exact absurd h (by decide)
      · rw [if_neg hincomp] at h
        by_cases hcrc : (s.drop (6 + s.getD 3 0)).take 4
            = u32LE (nov_crc32 (s.take (6 + s.getD 3 0)))
        · have h3' : ¬ (s ++ ext).length < 3 := by
            simp only [List.length_append]
            omega
          have htake3 : (s ++ ext).take 3 = s.take 3 :=
            List.take_append_of_le_length (by omega)
          have hgd : (s ++ ext).getD 3 0 = s.getD 3 0 :=
            List.getD_append _ _ _ _ (by omega)
          have e1 : (s ++ ext).take (6 + s.getD 3 0) = s.take (6 + s.getD 3 0) :=
            List.take_append_of_le_length (by omega)
          have e2 : (s ++ ext).drop (6 + s.getD 3 0) = s.drop (6 + s.getD 3 0) ++ ext :=
            List.drop_append_of_le_length (by omega)
          have e3 : (s.drop (6 + s.getD 3 0) ++ ext).take 4
              = (s.drop (6 + s.getD 3 0)).take 4 :=
            List.take_append_of_le_length (by rw [List.length_drop]; omega)
          rw [if_neg h3', htake3, if_pos hsync, hgd,
            if_neg (show ¬ (s ++ ext).length < 10 + s.getD 3 0 by
              simp only [List.length_append]; omega),
            e1, e2, e3, if_pos hcrc, if_neg h3, if_pos hsync, if_neg hincomp]
        · rw [if_neg hcrc] at h
          exact absurd h (by decide)
    · rw [if_neg hsync] at h
      exact absurd h (by decide)

/-- A positive binary-matcher answer never exceeds the buffer length. -/
theorem IsNovMessage_pos_le (s : List Nat) (h : 0 < IsNovMessage s) :
    (IsNovMessage s).toNat ≤ s.length := by
  unfold IsNovMessage at h ⊢
  by_cases h3 : s.length < 3
  · rw [if_pos h3] at h ⊢
    by_cases he : s = novSyncBytes.take s.length
    · rw [if_pos he] at h
      exact absurd h (by decide)
    · rw [if_neg he] at h
      exact absurd h (by decide)
  · rw [if_neg h3] at h ⊢
    by_cases hsync : s.take 3 = novSyncBytes
    · rw [if_pos hsync] at h ⊢
      by_cases hincomp : s.length < 10 + s.getD 3 0
      · rw [if_pos hincomp] at h
        exact absurd h (by decide)
      · rw [if_neg hincomp] at h ⊢
        by_cases hcrc : (s.drop (6 + s.getD 3 0)).take 4
            = u32LE (nov_crc32 (s.take (6 + s.getD 3 0)))
        · rw [if_pos hcrc]
          simp only [Int.toNat_ofNat]
          omega
        · rw [if_neg hcrc] at h
          exact absurd h (by decide)
    · rw [if_neg hsync] at h
      exact absurd h (by decide)

/-- The first CR LF pair of a buffer is unchanged by appending bytes. -/
theorem findCrLf_append (s ext : List Nat) (j : Nat) (h : findCrLf s = some j) :
    findCrLf (s ++ ext) = some j := by
  induction s generalizing j with
  | nil => simp [findCrLf] at h
  | cons a t ih =>
      match t with
      | [] => simp [findCrLf] at h
      | b :: r =>
          show findCrLf (a :: b :: (r ++ ext)) = some j
          unfold findCrLf at h ⊢
          by_cases hab : a = 13 ∧ b = 10
          · rw [if_pos hab] at h ⊢
            exact h
          · rw [if_neg hab] at h ⊢
            cases hf : findCrLf (b :: r) with
            | none =>
                rw [hf] at h
                simp at h
            | some j' =>
                rw [hf] at h
                have hext := ih j' hf
                rw [show (b :: r) ++ ext = b :: (r ++ ext) from rfl] at hext
                rw [hext]
                exact h

/-- A found CR LF terminator lies within the buffer. -/
theorem findCrLf_le (s : List Nat) (j : Nat) (h : findCrLf s = some j) :
    j + 2 ≤ s.length := by
  induction s generalizing j with
  | nil => simp [findCrLf] at h
  | cons a t ih =>
      match t with
      | [] => simp [findCrLf] at h
      | b :: r =>
          unfold findCrLf at h
          by_cases hab : a = 13 ∧ b = 10
          · rw [if_pos hab] at h
            have hj : j = 0 := by
              simpa using h.symm
            subst hj
            simp only [List.length_cons]
            omega
          · rw [if_neg hab] at h
            cases hf : findCrLf (b :: r) with
            | none =>
                rw [hf] at h
                simp at h
            | some j' =>
                rw [hf] at h
                simp only [Option.map_some', Option.some.injEq] at h
                have hh := ih j' hf
                simp only [List.length_cons] at hh ⊢
                omega

/-- A buffer the ascii matcher rejects is still rejected after appending:
the 0 answer depends only on the first byte. -/
theorem IsNmeaMessage_zero_ext (s ext : List Nat) (hne : s ≠ [])
    (h : IsNmeaMessage s = 0) : IsNmeaMessage (s ++ ext) = 0 := by
  unfold IsNmeaMessage at h ⊢
  by_cases hb : s.headD 0 ≠ 36
  · have hh : (s ++ ext).headD 0 = s.headD 0 := by
      match s with
      | b :: t => rfl
      | [] => exact absurd rfl hne
    rw [if_pos (by rw [hh]; exact hb)]
  · rw [if_neg hb] at h
    cases hf : findCrLf s with
    | some j =>
        rw [hf] at h
        have h' : ((j + 2 : Nat) : Int) = 0 := h
        omega
    | none =>
        rw [hf] at h
        exact absurd h (by decide)

/-- A complete sentence recognized by the ascii matcher is recognized with
the same size after appending bytes. -/
theorem IsNmeaMessage_pos_ext (s ext : List Nat) (h : 0 < IsNmeaMessage s) :
    IsNmeaMessage (s ++ ext) = IsNmeaMessage s := by
  unfold IsNmeaMessage at h ⊢
  by_cases hb : s.headD 0 ≠ 36
  · rw [if_pos hb] at h
    exact absurd h (by decide)
  · rw [if_neg hb] at h
    have hne : s ≠ [] := by
      intro e
      subst e
      exact hb (by decide)
    have hh : (s ++ ext).headD 0 = s.headD 0 := by
      match s with
      | b :: t => rfl
      | [] => exact absurd rfl hne
    rw [if_neg (by rw [hh]; exact hb), if_neg hb]
    cases hf : findCrLf s with
    | none =>
        rw [hf] at h
        exact absurd h (by decide)
    | some j =>
        rw [findCrLf_append s ext j hf]

/-- A positive ascii-matcher answer never exceeds the buffer length. -/
theorem IsNmeaMessage_pos_le (s : List Nat) (h : 0 < IsNmeaMessage s) :
    (IsNmeaMessage s).toNat ≤ s.length := by
  unfold IsNmeaMessage at h ⊢
  by_cases hb : s.headD 0 ≠ 36
  · rw [if_pos hb] at h
    exact absurd h (by decide)
  · rw [if_neg hb] at h ⊢
    cases hf : findCrLf s with
    | none =>
        rw [hf] at h
        exact absurd h (by decide)
    | some j =>
        have hh := findCrLf_le s j hf
        show ((j + 2 : Nat) : Int).toNat ≤ s.length
        omega

/-- Bounded-length version of `scanBuf_append_of_complete`, proved by
induction on the length bound. -/
theorem scanBuf_append_aux (isNov isNmea : List Nat → Int)
    (hnov0 : ∀ s ext, s ≠ [] → isNov s = 0 → isNov (s ++ ext) = 0)
    (hnovP : ∀ s ext, 0 < isNov s → isNov (s ++ ext) = isNov s)
    (hnovL : ∀ s, 0 < isNov s → (isNov s).toNat ≤ s.length)
    (hnm0 : ∀ s ext, s ≠ [] → isNmea s = 0 → isNmea (s ++ ext) = 0)
    (hnmP : ∀ s ext, 0 < isNmea s → isNmea (s ++ ext) = isNmea s)
    (hnmL : ∀ s, 0 < isNmea s → (isNmea s).toNat ≤ s.length)
    (c2 : List Nat) :
    ∀ (N : Nat) (c1 : List Nat), c1.length ≤ N →
      ScanEvent.stopIncomplete ∉ scanBuf isNov isNmea c1 →
      scanBuf isNov isNmea (c1 ++ c2)
        = scanBuf isNov isNmea c1 ++ scanBuf isNov isNmea c2 := by
  intro N
  induction N with
  | zero =>
      intro c1 hl _
      have hc : c1 = [] := List.eq_nil_of_length_eq_zero (Nat.le_zero.mp hl)
      subst hc
      simp [scanBuf_nil]
  | succ N ih =>
      intro c1 hl h
      match c1 with
      | [] => simp [scanBuf_nil]
      | b :: t =>
          simp only [List.length_cons] at hl
          rw [scanBuf_cons] at h
          have ea : (b :: t) ++ c2 = b :: (t ++ c2) := rfl
          by_cases hn : 0 < isNov (b :: t)
          · rw [if_pos hn] at h
            simp only [List.mem_cons] at h
            push_neg at h
            have hE : isNov ((b :: t) ++ c2) = isNov (b :: t) := hnovP (b :: t) c2 hn
            have hL := hnovL (b :: t) hn
            have h1 : 1 ≤ (isNov (b :: t)).toNat := by omega
            have hdl : ((b :: t).drop (isNov (b :: t)).toNat).length ≤ N := by
              rw [List.length_drop]
              simp only [List.length_cons]
              omega
            rw [ea, scanBuf_cons, ← ea, hE, if_pos hn,
              List.take_append_of_le_length hL, List.drop_append_of_le_length hL,
              ih ((b :: t).drop (isNov (b :: t)).toNat) hdl h.2,
              scanBuf_cons isNov isNmea b t, if_pos hn, List.cons_append]
          · by_cases hneg : isNov (b :: t) < 0
            · rw [if_neg hn, if_pos hneg] at h
              simp at h
            · have h0 : isNov (b :: t) = 0 := by omega
              rw [if_neg hn, if_neg hneg] at h
              have hE0 : isNov ((b :: t) ++ c2) = 0 :=
                hnov0 (b :: t) c2 (by simp) h0
              have hnc : ¬ 0 < isNov ((b :: t) ++ c2) := by omega
              have hnc' : ¬ isNov ((b :: t) ++ c2) < 0 := by omega
              by_cases hm : 0 < isNmea (b :: t)
              · rw [if_pos hm] at h
                simp only [List.mem_cons] at h
                push_neg at h
                have hmE : isNmea ((b :: t) ++ c2) = isNmea (b :: t) :=
                  hnmP (b :: t) c2 hm
                have hmL := hnmL (b :: t) hm
                have hm1 : 1 ≤ (isNmea (b :: t)).toNat := by omega
                have hdl : ((b :: t).drop (isNmea (b :: t)).toNat).length ≤ N := by
                  rw [List.length_drop]
                  simp only [List.length_cons]
                  omega
                rw [ea, scanBuf_cons, ← ea, if_neg hnc, if_neg hnc', hmE, if_pos hm,
                  List.take_append_of_le_length hmL, List.drop_append_of_le_length hmL,
                  ih ((b :: t).drop (isNmea (b :: t)).toNat) hdl h.2,
                  scanBuf_cons isNov isNmea b t, if_neg hn, if_neg hneg, if_pos hm,
                  List.cons_append]
              · by_cases hmneg : isNmea (b :: t) < 0
                · rw [if_neg hm, if_pos hmneg] at h
                  simp at h
                · have hm0 : isNmea (b :: t) = 0 := by omega
                  rw [if_neg hm, if_neg hmneg] at h
                  simp only [List.mem_cons] at h
                  push_neg at h
                  have hmE0 : isNmea ((b :: t) ++ c2) = 0 :=
                    hnm0 (b :: t) c2 (by simp) hm0
                  have hmc : ¬ 0 < isNmea ((b :: t) ++ c2) := by omega
                  have hmc' : ¬ isNmea ((b :: t) ++ c2) < 0 := by omega
                  rw [ea, scanBuf_cons, ← ea, if_neg hnc, if_neg hnc',
                    if_neg hmc, if_neg hmc',
                    ih t (by omega) h.2,
                    scanBuf_cons isNov isNmea b t, if_neg hn, if_neg hneg,
                    if_neg hm, if_neg hmneg, List.cons_append]

/-- When the first chunk is scanned to completion (no "incomplete" stop),
scanning the concatenation equals concatenating the two passes, for any
matchers whose verdicts are stable under appending bytes. -/
theorem scanBuf_append_of_complete (isNov isNmea : List Nat → Int)
    (hnov0 : ∀ s ext, s ≠ [] → isNov s = 0 → isNov (s ++ ext) = 0)
    (hnovP : ∀ s ext, 0 < isNov s → isNov (s ++ ext) = isNov s)
    (hnovL : ∀ s, 0 < isNov s → (isNov s).toNat ≤ s.length)
    (hnm0 : ∀ s ext, s ≠ [] → isNmea s = 0 → isNmea (s ++ ext) = 0)
    (hnmP : ∀ s ext, 0 < isNmea s → isNmea (s ++ ext) = isNmea s)
    (hnmL : ∀ s, 0 < isNmea s → (isNmea s).toNat ≤ s.length)
    (c1 c2 : List Nat)
    (h : ScanEvent.stopIncomplete ∉ scanBuf isNov isNmea c1) :
    scanBuf isNov isNmea (c1 ++ c2)
      = scanBuf isNov isNmea c1 ++ scanBuf isNov isNmea c2 :=
  scanBuf_append_aux isNov isNmea hnov0 hnovP hnovL hnm0 hnmP hnmL c2
    c1.length c1 (Nat.le_refl _) h

/-- Claim C1 counterexample: the sentence `$FP,A*00\r\n` delivered in one
read decodes to one frame, but delivered split as `$FP,A*0` then `0\r\n`
across two read cycles decodes to no frame at all: ReadAndPublish's buffer
is a local variable, so the unconsumed trailing bytes of the first cycle
are discarded, not retained. -/
theorem c1_fragmentation_cx :
    decodedFrames (runCycles [[36, 70, 80, 44, 65, 42, 48], [48, 13, 10]])
      ≠ decodedFrames (readCycle ([36, 70, 80, 44, 65, 42, 48] ++ [48, 13, 10])) := by
  decide

/-- Claim C1 as amended: the driver retains nothing between read cycles (a
pass that ends on "incomplete" discards the remaining bytes), so delivering
a byte sequence split across two read cycles yields the same ordered frames
as one read whenever the first chunk's pass runs to completion without an
incomplete stop; a frame that straddles the cycle boundary can be lost, as
the counterexample shows. -/
theorem c1_fragmentation_amended (c1 c2 : List Nat)
    (h : ScanEvent.stopIncomplete ∉ readCycle c1) :
    readCycle (c1 ++ c2) = readCycle c1 ++ readCycle c2 ∧
    decodedFrames (runCycles [c1, c2]) = decodedFrames (readCycle (c1 ++ c2)) := by
  have e := scanBuf_append_of_complete IsNovMessage IsNmeaMessage
    IsNovMessage_zero_ext IsNovMessage_pos_ext IsNovMessage_pos_le
    IsNmeaMessage_zero_ext IsNmeaMessage_pos_ext IsNmeaMessage_pos_le
    c1 c2 h
  refine ⟨e, ?_⟩
  show decodedFrames (readCycle c1 ++ (readCycle c2 ++ [])) = _
  simp only [readCycle]
  rw [e]
  simp [decodedFrames]

/-- Witness for the amended claim C1: an ascii frame followed by a binary
frame, split exactly at the frame boundary, decodes identically to the
one-read delivery. -/
theorem c1_fragmentation_amended_witness :
    readCycle (nmeaEx ++ novEx) = readCycle nmeaEx ++ readCycle novEx ∧
    decodedFrames (runCycles [nmeaEx, novEx])
      = decodedFrames (readCycle (nmeaEx ++ novEx)) :=
  c1_fragmentation_amended nmeaEx novEx (by decide)


/-- Map assignment changes no keys when the key is present, and appends
exactly the new key otherwise. -/
theorem regKeys_mapAssign (r : Registry) (k : String) (v : Option Nat) :
    regKeys (mapAssign r k v)
      = if k ∈ regKeys r then regKeys r else regKeys r ++ [k] := by
  induction r with
  | nil => simp [mapAssign, regKeys]
  | cons p rest ih =>
      obtain ⟨k', v'⟩ := p
      by_cases hk : k' = k
      · subst hk
        have e1 : mapAssign ((k', v') :: rest) k' v = (k', v) :: rest := by
          simp [mapAssign]
        rw [e1,
          if_pos (show k' ∈ regKeys ((k', v') :: rest) from List.mem_cons_self _ _)]
        rfl
      · have hmm : (k ∈ regKeys ((k', v') :: rest)) ↔ (k ∈ regKeys rest) := by
          simp only [regKeys, List.map_cons, List.mem_cons]
          constructor
          · rintro (h | h)
            · exact absurd h.symm hk
            · exact h
          · exact Or.inr
        have e1 : mapAssign ((k', v') :: rest) k v = (k', v') :: mapAssign rest k v := by
          simp [mapAssign, hk]
        have e2 : regKeys ((k', v') :: mapAssign rest k v)
            = k' :: regKeys (mapAssign rest k v) := rfl
        rw [e1, e2, ih]
        by_cases hm : k ∈ regKeys rest
        · rw [if_pos hm, if_pos (hmm.mpr hm)]
          rfl
        · rw [if_neg hm, if_neg (fun hc => hm (hmm.mp hc))]
          show k' :: (regKeys rest ++ [k]) = regKeys ((k', v') :: rest) ++ [k]
          rfl

/-- Map assignment preserves key distinctness. -/
theorem nodup_mapAssign (r : Registry) (k : String) (v : Option Nat)
    (h : (regKeys r).Nodup) : (regKeys (mapAssign r k v)).Nodup := by
  rw [regKeys_mapAssign]
  by_cases hm : k ∈ regKeys r
  · rw [if_pos hm]
    exact h
  · rw [if_neg hm]
    exact List.Nodup.append h (List.nodup_singleton k)
      (by simp [List.disjoint_singleton, hm])

/-- Each registration step preserves key distinctness. -/
theorem registerFormat_nodup (st : ConvState) (f : String)
    (h : (regKeys st.reg).Nodup) : (regKeys (registerFormat st f).reg).Nodup := by
  unfold registerFormat
  by_cases h1 : f = "ODOMETRY"
  · rw [if_pos h1]
    exact nodup_mapAssign _ _ _ (nodup_mapAssign _ _ _ h)
  · rw [if_neg h1]
    by_cases h2 : f = "LLH"
    · rw [if_pos h2]
      exact nodup_mapAssign _ _ _ h
    · rw [if_neg h2]
      by_cases h3 : f = "RAWIMU"
      · rw [if_pos h3]
        exact nodup_mapAssign _ _ _ h
      · rw [if_neg h3]
        by_cases h4 : f = "CORRIMU"
        · rw [if_pos h4]
          exact nodup_mapAssign _ _ _ h
        · rw [if_neg h4]
          by_cases h5 : f = "TF"
          · rw [if_pos h5]
            by_cases h6 : lookupKey st.reg "TF" = none
            · rw [if_pos h6]
              exact nodup_mapAssign _ _ _ h
            · rw [if_neg h6]
              exact h
          · rw [if_neg h5]
            exact h

/-- Folding registration steps preserves key distinctness. -/
theorem foldRegister_nodup (formats : List String) :
    ∀ st : ConvState, (regKeys st.reg).Nodup →
      (regKeys (formats.foldl registerFormat st).reg).Nodup := by
  induction formats with
  | nil =>
      intro st h
      exact h
  | cons f rest ih =>
      intro st h
      exact ih _ (registerFormat_nodup st f h)

/-- After assignment the key maps to the assigned value. -/
theorem lookupKey_mapAssign (r : Registry) (k : String) (v : Option Nat) :
    lookupKey (mapAssign r k v) k = some v := by
  induction r with
  | nil => simp [mapAssign, lookupKey]
  | cons p rest ih =>
      obtain ⟨k', v'⟩ := p
      by_cases hk : k' = k
      · simp [mapAssign, hk, lookupKey]
      · simp [mapAssign, hk, lookupKey, ih]

/-- Claim C6 counterexample: registering LLH a second time is not a no-op —
it replaces the existing converter instance with a newly allocated one
(instance 1 instead of instance 0), because the loop assigns through
`a_converters_["LLH"] = std::unique_ptr(new ...)` with no presence guard. -/
theorem c6_idempotent_registry_cx :
    registerFormat (InitializeConverters ["LLH"]) "LLH"
      ≠ InitializeConverters ["LLH"] ∧
    (InitializeConverters ["LLH", "LLH"]).reg
      ≠ (InitializeConverters ["LLH"]).reg := by
  decide

/-- Claim C6 as amended: InitializeConverters never produces duplicate
entries — the registry keys stay distinct for every configuration list, so
there is exactly one converter entry per category — and a repeated direct
TF request is a guarded no-op keeping the existing instance; but a repeated
ODOMETRY/LLH/RAWIMU/CORRIMU registration replaces the existing instance
with a newly constructed one (shown for LLH: the entry afterwards holds the
freshly allocated id) rather than being a no-op. -/
theorem c6_idempotent_registry_amended :
    (∀ formats : List String,
      (regKeys (InitializeConverters formats).reg).Nodup) ∧
    (∀ st : ConvState, lookupKey st.reg "TF" ≠ none →
      registerFormat st "TF" = st) ∧
    (∀ st : ConvState,
      lookupKey (registerFormat st "LLH").reg "LLH" = some (some st.nextId)) := by
  refine ⟨?_, ?_, ?_⟩
  · intro formats
    exact foldRegister_nodup formats { reg := [], nextId := 0 } (by simp [regKeys])
  · intro st hTF
    unfold registerFormat
    rw [if_neg (by decide), if_neg (by decide), if_neg (by decide),
      if_neg (by decide), if_pos rfl, if_neg hTF]
  · intro st
    unfold registerFormat
    rw [if_neg (by decide), if_pos rfl]
    exact lookupKey_mapAssign st.reg "LLH" (some st.nextId)

/-- Witness for the amended claim C6 at a concrete configuration list and
concrete registries. -/
theorem c6_idempotent_registry_amended_witness :
    (regKeys (InitializeConverters ["ODOMETRY", "ODOMETRY", "TF", "LLH"]).reg).Nodup ∧
    registerFormat { reg := [("TF", some 0)], nextId := 1 } "TF"
      = { reg := [("TF", some 0)], nextId := 1 } ∧
    lookupKey (registerFormat { reg := [("LLH", some 0)], nextId := 1 } "LLH").reg "LLH"
      = some (some 1) :=
  ⟨c6_idempotent_registry_amended.1 ["ODOMETRY", "ODOMETRY", "TF", "LLH"],
   c6_idempotent_registry_amended.2.1 { reg := [("TF", some 0)], nextId := 1 } (by decide),
   c6_idempotent_registry_amended.2.2 { reg := [("LLH", some 0)], nextId := 1 }⟩

/-- Claim C7 counterexample: dispatching `$FP,XYZ*00` against the start-up
registry for LLH emits nothing and raises nothing, but the lookup itself —
`a_converters_[header]`, a std::map::operator[] — default-inserts a null
entry for the missed key, so the registry does not remain as built. -/
theorem c7_silent_miss_cx :
    NmeaConvertAndPublish (InitializeConverters ["LLH"]).reg msgFpXYZ
      = NmeaOutcome.done ((InitializeConverters ["LLH"]).reg ++ [("XYZ", none)]) none ∧
    (InitializeConverters ["LLH"]).reg ++ [("XYZ", none)]
      ≠ (InitializeConverters ["LLH"]).reg := by
  decide

/-- Claim C7 as amended: an FP sentence whose message type has no registry
entry is dispatched silently — no converter invoked, no error — but the
lookup default-inserts a null entry for the missed key; the pre-existing
entries (the converters built at start-up) are preserved unchanged. -/
theorem c7_silent_miss_amended (reg : Registry) (msg : List Char) (header : String)
    (hm : 1 ≤ msg.length)
    (h0 : (nmeaTokens msg)[0]? = some "FP")
    (h1 : (nmeaTokens msg)[1]? = some header)
    (hmiss : lookupKey reg header = none) :
    NmeaConvertAndPublish reg msg = NmeaOutcome.done (reg ++ [(header, none)]) none := by
  unfold NmeaConvertAndPublish
  rw [if_neg (by omega)]
  simp only [h0, h1, mapIndexRef, hmiss, if_true]

/-- Witness for the amended claim C7 at the LLH start-up registry and the
sentence `$FP,XYZ*00`. -/
theorem c7_silent_miss_amended_witness :
    NmeaConvertAndPublish (InitializeConverters ["LLH"]).reg msgFpXYZ
      = NmeaOutcome.done ((InitializeConverters ["LLH"]).reg ++ [("XYZ", none)]) none :=
  c7_silent_miss_amended (InitializeConverters ["LLH"]).reg msgFpXYZ "XYZ"
    (by decide) (by decide) (by decide) (by decide)

/-- Claim C8 counterexample: the sentence `$GP,LLH*00` is dropped with the
registry completely untouched even though every rendering of its key — the
second token alone, the first token alone, and both two-level spellings —
is registered, so no lookup on its key can have missed: the dispatcher
rejected the sentence before performing any registry lookup (the first
token was not "FP"). -/
theorem c8_lookup_before_reject_cx :
    NmeaConvertAndPublish regAllKeys msgGpLLH = NmeaOutcome.done regAllKeys none := by
  decide

/-- Claim C8 as amended: only sentences whose first token is exactly "FP"
reach the registry lookup, and the lookup key is the second token alone
(not a two-level key); a sentence with any other first token is rejected
before any lookup, leaving the registry untouched and dispatching nothing,
while FP sentences are dispatched exactly when the lookup on the second
token finds a non-null converter. -/
theorem c8_dispatch_amended (reg : Registry) (msg : List Char) (hm : 1 ≤ msg.length) :
    (∀ t0, (nmeaTokens msg)[0]? = some t0 → t0 ≠ "FP" →
      NmeaConvertAndPublish reg msg = NmeaOutcome.done reg none) ∧
    (∀ header, (nmeaTokens msg)[0]? = some "FP" → (nmeaTokens msg)[1]? = some header →
      NmeaConvertAndPublish reg msg
        = NmeaOutcome.done (mapIndexRef reg header).1
            (if (mapIndexRef reg header).2 = none then none
             else some (header, nmeaTokens msg))) := by
  constructor
  · intro t0 h0 hne
    unfold NmeaConvertAndPublish
    rw [if_neg (by omega)]
    simp only [h0]
    rw [if_neg hne]
  · intro header h0 h1
    unfold NmeaConvertAndPublish
    rw [if_neg (by omega)]
    simp only [h0, h1]
    cases hv : (mapIndexRef reg header).2 with
    | some cid => simp [hv]
    | none => simp [hv]

/-- Witness for the amended claim C8: the non-FP sentence `$GP,LLH*00` is
rejected with the registry untouched, and the FP sentence `$FP,XYZ*00` goes
through the lookup on its second token. -/
theorem c8_dispatch_amended_witness :
    NmeaConvertAndPublish regAllKeys msgGpLLH = NmeaOutcome.done regAllKeys none ∧
    NmeaConvertAndPublish regAllKeys msgFpXYZ
      = NmeaOutcome.done (mapIndexRef regAllKeys "XYZ").1
          (if (mapIndexRef regAllKeys "XYZ").2 = none then none
           else some ("XYZ", nmeaTokens msgFpXYZ)) :=
  ⟨(c8_dispatch_amended regAllKeys msgGpLLH (by decide)).1 "GP" (by decide) (by decide),
   (c8_dispatch_amended regAllKeys msgFpXYZ (by decide)).2 "XYZ" (by decide) (by decide)⟩

/-- Claim C10: the dispatcher indexes the token list at positions 0 and 1
with no bounds check of its own: an FP sentence whose content carries fewer
than two comma-separated tokens (such as `$FP*XX`) makes `tokens.at(1)`
throw std::out_of_range, and dispatch is exception-free whenever the
sentence carries at least two tokens. -/
theorem c10_token_bounds (reg : Registry) (msg : List Char) (hm : 1 ≤ msg.length) :
    ((nmeaTokens msg).length < 2 → (nmeaTokens msg)[0]? = some "FP" →
      NmeaConvertAndPublish reg msg = NmeaOutcome.thrown) ∧
    (2 ≤ (nmeaTokens msg).length → NmeaConvertAndPublish reg msg ≠ NmeaOutcome.thrown) := by
  constructor
  · intro hlen h0
    unfold NmeaConvertAndPublish
    rw [if_neg (by omega)]
    simp only [h0, if_true]
    have h1 : (nmeaTokens msg)[1]? = none := by
      rw [List.getElem?_eq_none]
      omega
    simp only [h1]
  · intro hlen
    unfold NmeaConvertAndPublish
    rw [if_neg (by omega)]
    have h0 : ∃ t0, (nmeaTokens msg)[0]? = some t0 := by
      rw [List.getElem?_eq_getElem (by omega)]
      exact ⟨_, rfl⟩
    obtain ⟨t0, h0⟩ := h0
    have h1 : ∃ t1, (nmeaTokens msg)[1]? = some t1 := by
      rw [List.getElem?_eq_getElem (by omega)]
      exact ⟨_, rfl⟩
    obtain ⟨t1, h1⟩ := h1
    simp only [h0, h1]
    by_cases hfp : t0 = "FP"
    · rw [if_pos hfp]
      cases hv : (mapIndexRef reg t1).2 with
      | some cid => simp [hv]
      | none => simp [hv]
    · rw [if_neg hfp]
      simp

/-- Witness for claim C10: `$FP*XX` throws; `$FP,XYZ*00` does not. -/
theorem c10_token_bounds_witness :
    NmeaConvertAndPublish [] msgFpOnly = NmeaOutcome.thrown ∧
    NmeaConvertAndPublish [] msgFpXYZ ≠ NmeaOutcome.thrown :=
  ⟨(c10_token_bounds [] msgFpOnly (by decide)).1 (by decide) (by decide),
   (c10_token_bounds [] msgFpXYZ (by decide)).2 (by decide)⟩

/-- Claim C9: a non-blocking read with no data available yet reports
success and the connection is not treated as closed; the read cycle
reports failure exactly on a peer close or another I/O error, and data is
always processed with a success report. -/
theorem c9_read_semantics :
    ReadAndPublish ReadResult.noData = (true, []) ∧
    (ReadAndPublish ReadResult.closed).1 = false ∧
    (ReadAndPublish ReadResult.ioError).1 = false ∧
    ∀ bytes, (ReadAndPublish (ReadResult.data bytes)).1 = true :=
  ⟨rfl, rfl, rfl, fun _ => rfl⟩
